import Mathlib

/-!
Verification of the serialized-transaction exchange format and the
signature-collection workflow of the `safe-protocol-minimal` repository.

The development shallowly embeds:

* the background parser of `src/lib/txWorker.ts` (the `self.onmessage`
  handler), including a model of the platform `JSON.parse` function it
  delegates to;
* the serialization of a transaction record performed by
  `JSON.stringify(currentTx, null, 2)` in `src/lib/CreateSafe.svelte`;
* the `SafeService.createTransaction` / `SafeService.addSignature`
  operations of `src/lib/SafeService.ts`, with the external
  Safe-protocol SDK modelled from the specification's description of
  that collaborator;
* the UI state transitions of `src/lib/CreateSafe.svelte`
  (`canSignTransaction`, `handleAddSignature`, the worker `onmessage`
  handler installed in `onMount`).

JavaScript machine details that matter here are modelled explicitly:
truthiness of field accesses, property access on `null` throwing a
`TypeError`, `x || d` defaulting, and case-insensitive address
comparison via `toLowerCase`.
-/

namespace SafeMin

/-- One entry of the `signatures` array of a serialized transaction, as
declared inline in the `SerializedSafeTransaction` interface of
`src/lib/SafeService.ts`: `{ signer: string, data: string }`. -/
structure SafeSignature where
  signer : String
  data : String
deriving DecidableEq, Repr

/-- The `SerializedSafeTransaction` interface of `src/lib/SafeService.ts`:
`to`, `value`, `data` strings, `signatures` an array of signature
entries, `nonce` an optional number (a Safe nonce is a non-negative
integer, so it is carried as a `Nat`). -/
structure SerializedSafeTransaction where
  «to» : String
  value : String
  data : String
  signatures : List SafeSignature
  nonce : Option Nat
deriving DecidableEq, Repr

/-- Lexical form of a JSON number as read by `JSON.parse`: optional minus
sign, integer digits, optional fraction digits, optional exponent
(sign and digits).  Digits are stored as their values (each below 10).
Keeping the lexeme rather than a numeric value avoids modelling
IEEE-754 rounding, which no claim depends on. -/
structure NumLit where
  neg : Bool
  intDigits : List Nat
  fracDigits : Option (List Nat)
  expPart : Option (Bool × List Nat)
deriving DecidableEq, Repr

/-- A JavaScript value produced by `JSON.parse`: `null`, booleans,
numbers, strings, arrays and objects (an object is its list of
key/value pairs in insertion order; duplicate keys may occur, and
field lookup takes the last occurrence, as assignment during parsing
overwrites earlier ones). -/
inductive Json where
  | null
  | bool (b : Bool)
  | num (lit : NumLit)
  | str (s : String)
  | arr (items : List Json)
  | obj (members : List (String × Json))


/-! ## A model of the platform `JSON.parse`

`txWorker.ts` delegates the text-to-value step to the host's
`JSON.parse`.  The functions below implement the JSON grammar
(RFC 8259, which `JSON.parse` follows) over `List Char`.  One known
model boundary: a `\u` escape whose value lies in the UTF-16 surrogate
range has no `Char` counterpart (JavaScript strings admit lone
surrogates and surrogate pairs, Lean strings only Unicode scalars) and
is read as U+FFFD; no claim exercises that corner, and the printed
output of this system only ever contains `\u` escapes below 0x20. -/

/-- JSON insignificant whitespace: space, tab, line feed, carriage
return. -/
def jsonWs (c : Char) : Bool :=
  c = ' ' || c = '\t' || c = '\n' || c = '\x0d'

/-- Drop leading JSON whitespace. -/
def skipWs : List Char → List Char
  | [] => []
  | c :: cs => if jsonWs c then skipWs cs else c :: cs

/-- Value of a hexadecimal digit character, if it is one. -/
def hexDigitVal (c : Char) : Option Nat :=
  if '0' ≤ c ∧ c ≤ '9' then some (c.toNat - 48)
  else if 'a' ≤ c ∧ c ≤ 'f' then some (c.toNat - 87)
  else if 'A' ≤ c ∧ c ≤ 'F' then some (c.toNat - 55)
  else none

/-- Split off a (possibly empty) run of decimal digit characters,
returning their values. -/
def takeDigits : List Char → (List Nat × List Char)
  | [] => ([], [])
  | c :: cs =>
    if c.isDigit then
      let p := takeDigits cs
      ((c.toNat - 48) :: p.1, p.2)
    else ([], c :: cs)

/-- Read the body of a JSON string literal, the opening quote already
consumed; `acc` holds the characters read so far, reversed.  Returns
the decoded string and the input after the closing quote. -/
def parseStringBody (acc : List Char) (cs : List Char) : Option (String × List Char) :=
  match cs with
  | [] => none
  | c :: cs1 =>
    if c = '"' then some (⟨acc.reverse⟩, cs1)
    else if c = '\\' then
      match cs1 with
      | [] => none
      | e :: cs2 =>
        if e = '"' then parseStringBody ('"' :: acc) cs2
        else if e = '\\' then parseStringBody ('\\' :: acc) cs2
        else if e = '/' then parseStringBody ('/' :: acc) cs2
        else if e = 'b' then parseStringBody ('\x08' :: acc) cs2
        else if e = 'f' then parseStringBody ('\x0c' :: acc) cs2
        else if e = 'n' then parseStringBody ('\n' :: acc) cs2
        else if e = 'r' then parseStringBody ('\x0d' :: acc) cs2
        else if e = 't' then parseStringBody ('\t' :: acc) cs2
        else if e = 'u' then
          match cs2 with
          | h1 :: h2 :: h3 :: h4 :: cs3 =>
            match hexDigitVal h1, hexDigitVal h2, hexDigitVal h3, hexDigitVal h4 with
            | some a, some b, some c2, some d =>
              let n := ((a * 16 + b) * 16 + c2) * 16 + d
              if 0xd800 ≤ n ∧ n ≤ 0xdfff then
                parseStringBody ('\uFFFD' :: acc) cs3
              else
                parseStringBody (Char.ofNat n :: acc) cs3
            | _, _, _, _ => none
          | _ => none
        else none
    else if c.toNat < 0x20 then none
    else parseStringBody (c :: acc) cs1

/-- Split off a leading minus sign. -/
def parseSign : List Char → Bool × List Char
  | '-' :: t => (true, t)
  | cs => (false, cs)

/-- Read an optional fraction part (a decimal point must be followed by
at least one digit). -/
def parseFrac : List Char → Option (Option (List Nat) × List Char)
  | '.' :: cs3 =>
    (match takeDigits cs3 with
     | ([], _) => none
     | (fs, cs4) => some (some fs, cs4))
  | cs => some (none, cs)

/-- Split off the optional sign of an exponent. -/
def parseExpSign : List Char → Bool × List Char
  | '-' :: t => (true, t)
  | '+' :: t => (false, t)
  | cs => (false, cs)

/-- Read an optional exponent part (`e` or `E`, an optional sign, then
at least one digit). -/
def parseExpPart : List Char → Option (Option (Bool × List Nat) × List Char)
  | e :: cs6 =>
    if e = 'e' ∨ e = 'E' then
      let q := parseExpSign cs6
      match takeDigits q.2 with
      | ([], _) => none
      | (es, cs7) => some (some (q.1, es), cs7)
    else some (none, e :: cs6)
  | [] => some (none, [])

/-- Read a JSON number starting at `cs` (whose head is `-` or a digit).
JSON forbids a redundant leading zero, requires at least one integer
digit, and requires digits after a decimal point and in an exponent. -/
def parseNumber (cs : List Char) : Option (NumLit × List Char) :=
  let p0 := parseSign cs
  match takeDigits p0.2 with
  | ([], _) => none
  | (d :: ds, cs2) =>
    if d = 0 ∧ ds ≠ [] then none
    else
      match parseFrac cs2 with
      | none => none
      | some (frac, cs5) =>
        match parseExpPart cs5 with
        | none => none
        | some (ex, cs8) => some (⟨p0.1, d :: ds, frac, ex⟩, cs8)

/-- Read the elements of a non-empty JSON array, the opening bracket
already consumed; `pv` reads one value, `loopFuel` bounds the number
of iterations (the caller supplies more than any input can need, an
element consuming at least one character), and `acc` holds the
elements read so far, reversed. -/
def parseItemsGo (pv : List Char → Option (Json × List Char)) :
    Nat → List Char → List Json → Option (Json × List Char)
  | 0, _, _ => none
  | loopFuel + 1, cs, acc =>
    match pv cs with
    | none => none
    | some (v, r1) =>
      match skipWs r1 with
      | ',' :: r2 => parseItemsGo pv loopFuel r2 (v :: acc)
      | ']' :: r2 => some (.arr (v :: acc).reverse, r2)
      | _ => none

/-- Read the members of a non-empty JSON object, the opening brace
already consumed; `pv` reads one value, `loopFuel` bounds the number
of iterations, and `acc` holds the members read so far, reversed. -/
def parseMembersGo (pv : List Char → Option (Json × List Char)) :
    Nat → List Char → List (String × Json) → Option (Json × List Char)
  | 0, _, _ => none
  | loopFuel + 1, cs, acc =>
    match skipWs cs with
    | '"' :: r1 =>
      match parseStringBody [] r1 with
      | none => none
      | some (k, r2) =>
        match skipWs r2 with
        | ':' :: r3 =>
          match pv r3 with
          | none => none
          | some (v, r4) =>
            match skipWs r4 with
            | ',' :: r5 => parseMembersGo pv loopFuel r5 ((k, v) :: acc)
            | '\x7d' :: r5 => some (.obj ((k, v) :: acc).reverse, r5)
            | _ => none
        | _ => none
    | _ => none

/-- Read one JSON value (leading whitespace allowed), returning it and
the rest of the input.  `fuel` bounds the nesting depth; the top level
supplies more fuel than any input of that length can consume, since
entering a nested array or object consumes a bracket character. -/
def parseVal : Nat → List Char → Option (Json × List Char)
  | 0, _ => none
  | fuel + 1, cs =>
    match skipWs cs with
    | [] => none
    | c :: cs1 =>
      if c = 'n' then
        match cs1 with
        | 'u' :: 'l' :: 'l' :: r => some (.null, r)
        | _ => none
      else if c = 't' then
        match cs1 with
        | 'r' :: 'u' :: 'e' :: r => some (.bool true, r)
        | _ => none
      else if c = 'f' then
        match cs1 with
        | 'a' :: 'l' :: 's' :: 'e' :: r => some (.bool false, r)
        | _ => none
      else if c = '"' then
        match parseStringBody [] cs1 with
        | some (s, r) => some (.str s, r)
        | none => none
      else if c = '[' then
        match skipWs cs1 with
        | ']' :: r => some (.arr [], r)
        | _ => parseItemsGo (parseVal fuel) (cs1.length + 1) cs1 []
      else if c = '\x7b' then
        match skipWs cs1 with
        | '\x7d' :: r => some (.obj [], r)
        | _ => parseMembersGo (parseVal fuel) (cs1.length + 1) cs1 []
      else if c = '-' ∨ c.isDigit then
        match parseNumber (c :: cs1) with
        | some (l, r) => some (.num l, r)
        | none => none
      else none

/-- Model of the platform `JSON.parse`: read one value, then require
only whitespace to remain.  `none` stands for a thrown `SyntaxError`. -/
def jsonParse (s : String) : Option Json :=
  match parseVal (s.length + 2) s.data with
  | some (j, rest) => if skipWs rest = [] then some j else none
  | none => none

/-! ## A model of `JSON.stringify(tx, null, 2)` on a transaction record

`CreateSafe.svelte` serializes the current transaction with
`JSON.stringify(currentTx, null, 2)` (`handleCreateTransaction` and
`handleAddSignature`).  The functions below produce exactly that text
for a record: two-space indentation, keys in the insertion order
`to, value, data, signatures, nonce` of the object literal built by
`SafeService.createTransaction` (an order the spread
`{...serializedTx, signatures}` in `addSignature` preserves), and a
`nonce` member only when the record carries one. -/

/-- Hexadecimal digit character, lowercase, as the host's
`JSON.stringify` emits inside `\u00..` escapes. -/
def hexChar (d : Nat) : Char :=
  if d < 10 then Char.ofNat (48 + d) else Char.ofNat (87 + d)

/-- `JSON.stringify` string quoting of one character: `"` and `\` get a
backslash escape, the common control characters their short escapes,
any other character below 0x20 a `\u00..` escape, and everything else
stands for itself. -/
def escapeChar (c : Char) : List Char :=
  if c = '"' then ['\\', '"']
  else if c = '\\' then ['\\', '\\']
  else if c = '\x08' then ['\\', 'b']
  else if c = '\t' then ['\\', 't']
  else if c = '\n' then ['\\', 'n']
  else if c = '\x0c' then ['\\', 'f']
  else if c = '\x0d' then ['\\', 'r']
  else if c.toNat < 0x20 then
    ['\\', 'u', '0', '0', hexChar (c.toNat / 16), hexChar (c.toNat % 16)]
  else [c]

/-- Quote a string body character by character. -/
def escString : List Char → List Char
  | [] => []
  | c :: cs => escapeChar c ++ escString cs

/-- A complete JSON string literal for `s`. -/
def qstr (s : String) : List Char :=
  '"' :: escString s.data ++ ['"']

/-- Decimal digits of `n`, most significant first; `fuel`-indexed so the
recursion is structural (`digitsGo fuel n` is the numeral whenever
`n ≤ fuel`). -/
def digitsGo : Nat → Nat → List Nat
  | 0, n => [n]
  | fuel + 1, n => if n < 10 then [n] else digitsGo fuel (n / 10) ++ [n % 10]

/-- Decimal digits of `n`, most significant first. -/
def natDigits (n : Nat) : List Nat := digitsGo n n

/-- Decimal digit character. -/
def digitChar (d : Nat) : Char := Char.ofNat (48 + d)

/-- Decimal numeral for `n`, as `JSON.stringify` prints a non-negative
integer number. -/
def printNat (n : Nat) : List Char := (natDigits n).map digitChar

/-- Shorthand: the characters of a fixed fragment. -/
def sch (s : String) : List Char := s.data

/-- One entry of the `signatures` array, printed at depth two. -/
def printSigItem (s : SafeSignature) : List Char :=
  sch "    " ++ '\x7b' :: sch "\n      \"signer\": " ++ qstr s.signer ++
    sch ",\n      \"data\": " ++ qstr s.data ++ sch "\n    " ++ ['\x7d']

/-- The entries of a non-empty `signatures` array, joined by a comma and
a line break. -/
def printSigItems : List SafeSignature → List Char
  | [] => []
  | [s] => printSigItem s
  | s :: ss => printSigItem s ++ sch ",\n" ++ printSigItems ss

/-- The `signatures` array: `[]` when empty, otherwise one entry per
line. -/
def printSigs : List SafeSignature → List Char
  | [] => sch "[]"
  | ss => sch "[\n" ++ printSigItems ss ++ sch "\n  ]"

/-- The full pretty-printed record, exactly the text
`JSON.stringify(tx, null, 2)` produces for it. -/
def printRecord (r : SerializedSafeTransaction) : List Char :=
  '\x7b' :: sch "\n  \"to\": " ++ qstr r.to ++
    sch ",\n  \"value\": " ++ qstr r.value ++
    sch ",\n  \"data\": " ++ qstr r.data ++
    sch ",\n  \"signatures\": " ++ printSigs r.signatures ++
    (match r.nonce with
     | some n => sch ",\n  \"nonce\": " ++ printNat n
     | none => []) ++
    sch "\n" ++ ['\x7d']

/-- `serializedTxStr` as built by the component: the record's
pretty-printed JSON text. -/
def serializeRecord (r : SerializedSafeTransaction) : String :=
  ⟨printRecord r⟩

/-! ## The worker parser of `src/lib/txWorker.ts`

The `self.onmessage` handler: on blank input it posts
`{error: null, tx: null}`; otherwise it applies `JSON.parse` and then
the structural check
`!parsedTx.to || !parsedTx.value || !parsedTx.data ||
!Array.isArray(parsedTx.signatures)`, throwing
`Error('Invalid transaction format')` when it fails; any thrown error
is caught and posted as `{error: message, tx: null}`. -/

/-- The reply object posted by the worker: `error` and `tx` fields. -/
structure WorkerReply where
  error : Option String
  tx : Option Json

/-- Characters removed by JavaScript `String.prototype.trim`
(WhiteSpace and LineTerminator code points). -/
def jsWhitespace (c : Char) : Bool :=
  let u := c.toNat
  u = 0x20 || (0x9 ≤ u && u ≤ 0xd) || u = 0xa0 || u = 0x1680 ||
    (0x2000 ≤ u && u ≤ 0x200a) || u = 0x2028 || u = 0x2029 ||
    u = 0x202f || u = 0x205f || u = 0x3000 || u = 0xfeff

/-- `!txData.trim()`: the trimmed text is empty exactly when every
character is JavaScript whitespace. -/
def jsBlank (s : String) : Bool := s.data.all jsWhitespace

/-- The message of the `Error` thrown by the worker's structural
check. -/
def invalidFormatMsg : String := "Invalid transaction format"

/-- Representative message of the `SyntaxError` thrown by `JSON.parse`
on malformed text; its precise wording is host-engine dependent, the
worker merely forwards `error.message`. -/
def jsonSyntaxErrMsg : String := "Unexpected token in JSON"

/-- Representative message of the `TypeError` thrown by evaluating
`parsedTx.to` when `JSON.parse` returned `null` (the text was the JSON
literal `null`); its precise wording is host-engine dependent. -/
def nullAccessMsg : String := "Cannot read properties of null"

/-- Last-occurrence field lookup in an object member list: during
`JSON.parse` a repeated key overwrites the earlier value. -/
def lookupLast (fs : List (String × Json)) (k : String) : Option Json :=
  fs.foldl (fun acc p => if p.1 = k then some p.2 else acc) none

/-- JavaScript property access `j[k]`: a field of an object, `undefined`
(here `none`) on anything else — except `null`, whose access throws
and is handled separately by the caller. -/
def getField : Json → String → Option Json
  | .obj fs, k => lookupLast fs k
  | _, _ => none

/-- Whether a JSON number is a nonzero mantissa lexeme.  (`0`, `-0`,
`0.00`, `0e9` are falsy.  Model boundary: a tiny nonzero mantissa such
as `1e-400` underflows to `0.0` in the host's binary64 arithmetic and
would be falsy there; no claim and no field of this protocol carries
such a value.) -/
def numTruthy (l : NumLit) : Bool :=
  l.intDigits.any (· ≠ 0) ||
    (match l.fracDigits with
     | some fs => fs.any (· ≠ 0)
     | none => false)

/-- JavaScript truthiness of a field access result: `undefined`, `null`,
`false`, a zero number and the empty string are falsy; every other
value, arrays and objects included, is truthy. -/
def jsTruthy : Option Json → Bool
  | none => false
  | some .null => false
  | some (.bool b) => b
  | some (.num l) => numTruthy l
  | some (.str s) => !(s == "")
  | some (.arr _) => true
  | some (.obj _) => true

/-- `Array.isArray` applied to a field access result. -/
def isJsArray : Option Json → Bool
  | some (.arr _) => true
  | _ => false

/-- The structural check of the worker, as a predicate on the parsed
value: `to`, `value` and `data` truthy and `signatures` an array. -/
def structCheck (j : Json) : Bool :=
  jsTruthy (getField j "to") && jsTruthy (getField j "value") &&
    jsTruthy (getField j "data") && isJsArray (getField j "signatures")

/-- The whole worker message handler as a function from the submitted
text to the posted reply, mirroring the control flow of
`txWorker.ts`: blank test, `JSON.parse` inside `try`, field access on
the result (throwing on `null`), the structural check, and the `catch`
that turns any thrown error into an error reply. -/
def parseWorker (txData : String) : WorkerReply :=
  if jsBlank txData then ⟨none, none⟩
  else
    match jsonParse txData with
    | none => ⟨some jsonSyntaxErrMsg, none⟩
    | some .null => ⟨some nullAccessMsg, none⟩
    | some j =>
      if !jsTruthy (getField j "to") || !jsTruthy (getField j "value") ||
          !jsTruthy (getField j "data") || !isJsArray (getField j "signatures") then
        ⟨some invalidFormatMsg, none⟩
      else ⟨none, some j⟩

/-! ## Views between records and parsed values -/

/-- The JSON value underlying one signature entry. -/
def sigToJson (s : SafeSignature) : Json :=
  .obj [("signer", .str s.signer), ("data", .str s.data)]

/-- The canonical lexeme of a non-negative integer number. -/
def natLit (n : Nat) : NumLit := ⟨false, natDigits n, none, none⟩

/-- The JSON value underlying a record: the object
`JSON.stringify`/`JSON.parse` exchange for it. -/
def recordToJson (r : SerializedSafeTransaction) : Json :=
  .obj ([("to", .str r.to), ("value", .str r.value), ("data", .str r.data),
      ("signatures", .arr (r.signatures.map sigToJson))] ++
    (match r.nonce with
     | some n => [("nonce", .num (natLit n))]
     | none => []))

/-- Numeric value of a list of decimal digits. -/
def ofDigits (ds : List Nat) : Nat := ds.foldl (fun a d => a * 10 + d) 0

/-- A number lexeme read back as a non-negative integer, when it is the
canonical form of one. -/
def natLitToNat : NumLit → Option Nat
  | ⟨false, ds, none, none⟩ => some (ofDigits ds)
  | _ => none

/-- Read one signature entry off a parsed value. -/
def sigOfJson (j : Json) : Option SafeSignature :=
  match getField j "signer", getField j "data" with
  | some (.str s), some (.str d) => some ⟨s, d⟩
  | _, _ => none

/-- Read each signature entry off a parsed array. -/
def decodeSigs : List Json → Option (List SafeSignature)
  | [] => some []
  | j :: js =>
    match sigOfJson j, decodeSigs js with
    | some s, some ss => some (s :: ss)
    | _, _ => none

/-- Read a whole record off a parsed value, the way the component
consumes `currentTx` (field accesses only). -/
def jsonToRecord (j : Json) : Option SerializedSafeTransaction :=
  match getField j "to", getField j "value", getField j "data", getField j "signatures" with
  | some (.str t), some (.str v), some (.str d), some (.arr items) =>
    match decodeSigs items with
    | none => none
    | some sigs =>
      match getField j "nonce" with
      | none => some ⟨t, v, d, sigs, none⟩
      | some (.num l) => (natLitToNat l).map (fun n => ⟨t, v, d, sigs, some n⟩)
      | some _ => none
  | _, _, _, _ => none

/-! ## The external Safe-protocol SDK, modelled from the spec

`SafeService.ts` delegates transaction construction and signing to
`@safe-global/protocol-kit`, an external collaborator whose code is not
part of this repository.  The definitions below are modelled from the
spec's description of that collaborator (§6: "construct transaction
from (to, value, data, nonce)", "sign transaction with connected
signer", "attach an externally-supplied signature to a transaction
object"; §4.2: attaching adds the signature to the transaction's
signature sequence, and signing produces exactly one new signature over
the transaction and attaches it). -/

/-- The `MetaTransactionData` shape of `@safe-global/types-kit` as the
service builds it: destination, value and calldata only — it has no
nonce member. -/
structure MetaTransactionData where
  «to» : String
  value : String
  data : String
deriving DecidableEq, Repr

/-- Modelled from the spec: the transaction data stored inside an SDK
transaction object (`safeTransaction.data`): the canonical signable
tuple `(to, value, data, nonce)`.  (The real object also carries gas
and operation fields this layer never touches.) -/
structure SdkTxData where
  «to» : String
  value : String
  data : String
  nonce : Nat
deriving DecidableEq, Repr

/-- Modelled from the spec: an SDK transaction object — its signable
data and its ordered signature sequence. -/
structure SdkSafeTransaction where
  data : SdkTxData
  signatures : List SafeSignature
deriving DecidableEq, Repr

/-- Modelled from the spec: `protocolKit.createTransaction({transactions:
[t]})`.  The `MetaTransactionData` argument carries no nonce, so the
SDK resolves the transaction nonce from the current chain state — an
external input, passed here as `chainNonce`.  The fresh transaction
carries no signatures. -/
def sdkCreateTransaction (chainNonce : Nat) (t : MetaTransactionData) : SdkSafeTransaction :=
  ⟨⟨t.to, t.value, t.data, chainNonce⟩, []⟩

/-- Modelled from the spec: `safeTransaction.addSignature(sig)` attaches
an externally-supplied signature to the transaction object, appending
it to the signature sequence. -/
def SdkSafeTransaction.addSignature (tx : SdkSafeTransaction) (s : SafeSignature) :
    SdkSafeTransaction :=
  { tx with signatures := tx.signatures ++ [s] }

/-- Modelled from the spec: `protocolKit.signTransaction(tx)` has the
connected signer (address `signerAddress`, signing capability `sign`)
produce exactly one signature over the transaction's signable data and
attach it. -/
def sdkSignTransaction (signerAddress : String) (sign : SdkTxData → String)
    (tx : SdkSafeTransaction) : SdkSafeTransaction :=
  tx.addSignature ⟨signerAddress, sign tx.data⟩

/-! ## The service operations of `src/lib/SafeService.ts` -/

/-- JavaScript `x || d` on an optional string field: `undefined` and the
empty string give the default. -/
def jsOrString : Option String → String → String
  | none, d => d
  | some s, d => if s = "" then d else s

/-- The fields of the partial transaction data passed to
`createTransaction`; `value` and `data` are optional and defaulted by
the service. -/
structure SafeTransactionDataPartial where
  «to» : String
  value : Option String
  data : Option String
deriving DecidableEq, Repr

/-- `SafeService.createTransaction` (lines 89–132): builds a
`MetaTransactionData` from `to`, `value || '0'`, `data || '0x'`, has
the SDK create and sign the transaction, reads the signature entries
back, and assembles the serialized record
`{to, value, data || '0x', signatures, nonce}` from the signed
transaction's data.  Returns the record together with the signed SDK
transaction (whose hash the service also returns). -/
def SafeService.createTransaction (chainNonce : Nat) (signerAddress : String)
    (sign : SdkTxData → String) (txData : SafeTransactionDataPartial) :
    SerializedSafeTransaction × SdkSafeTransaction :=
  let transaction : MetaTransactionData :=
    ⟨txData.to, jsOrString txData.value "0", jsOrString txData.data "0x"⟩
  let safeTransaction := sdkCreateTransaction chainNonce transaction
  let signedTx := sdkSignTransaction signerAddress sign safeTransaction
  let signatures := signedTx.signatures
  let serializedTx : SerializedSafeTransaction :=
    ⟨signedTx.data.to, signedTx.data.value, jsOrString (some signedTx.data.data) "0x",
      signatures, some signedTx.data.nonce⟩
  (serializedTx, signedTx)

/-- `SafeService.addSignature` (lines 134–183): builds a fresh
`MetaTransactionData` from the record's `to`, `value`, `data` (and
nothing else — in particular not its `nonce`), has the SDK create the
transaction, re-attaches every prior signature in order, has the SDK
sign it, reads all signature entries back, and returns
`{...serializedTx, signatures}` together with the signed SDK
transaction. -/
def SafeService.addSignature (chainNonce : Nat) (signerAddress : String)
    (sign : SdkTxData → String) (serializedTx : SerializedSafeTransaction) :
    SerializedSafeTransaction × SdkSafeTransaction :=
  let transaction : MetaTransactionData :=
    ⟨serializedTx.to, serializedTx.value, serializedTx.data⟩
  let safeTransaction := sdkCreateTransaction chainNonce transaction
  let safeTransaction :=
    serializedTx.signatures.foldl SdkSafeTransaction.addSignature safeTransaction
  let signedTx := sdkSignTransaction signerAddress sign safeTransaction
  let signatures := signedTx.signatures
  ({ serializedTx with signatures := signatures }, signedTx)

/-! ## The UI state transitions of `src/lib/CreateSafe.svelte`

Two views of the component state are used.  The worker reply handler
(installed in `onMount`) stores whatever parsed value the worker
posted, so its view keeps `currentTx` as a raw `Json`.  The signing
workflow operates on a structurally valid record (the service reads
its `to`, `value`, `data`, `signatures`, `nonce` fields), so its view
keeps `currentTx` as a record. -/

/-- `canSignTransaction` (lines 505–512): false without a record or a
connected address; otherwise true exactly when no existing signature's
signer equals the connected address case-insensitively. -/
def canSignTransaction (currentTx : Option SerializedSafeTransaction)
    (connectedAddress : String) : Bool :=
  match currentTx with
  | none => false
  | some tx =>
    if connectedAddress = "" then false
    else !(tx.signatures.any fun sig => sig.signer.toLower == connectedAddress.toLower)

/-- The component state touched by the signing workflow. -/
structure UiState where
  status : String
  connectedAddress : String
  currentTx : Option SerializedSafeTransaction
  serializedTxStr : String
deriving Repr

/-- `handleAddSignature` (lines 523–538): without a record, the thrown
`Error('Please load a transaction first')` is caught and reported; with
one, the service call (`await safeService.addSignature(currentTx)`,
here the `service` argument, whose `Except.error` carries the message
of the error the real call would throw — signer unavailable, user
rejection, provider failure) either fails, leaving everything but
`status` unchanged, or succeeds, replacing `currentTx` wholesale and
re-serializing it.  (The transient `status = 'Adding signature...'`
set before the `await` is overwritten on both paths and is not part of
the final state.) -/
def handleAddSignature
    (service : SerializedSafeTransaction → Except String SerializedSafeTransaction)
    (st : UiState) : UiState :=
  match st.currentTx with
  | none => { st with status := "Failed to add signature: " ++ "Please load a transaction first" }
  | some tx =>
    match service tx with
    | .error msg => { st with status := "Failed to add signature: " ++ msg }
    | .ok newTx =>
      { st with
        currentTx := some newTx
        serializedTxStr := serializeRecord newTx
        status := "Signature added successfully!" }

/-- The component state touched by the worker reply handler. -/
structure WorkerViewState where
  status : String
  currentTx : Option Json

/-- The `txWorker.onmessage` handler installed in `onMount` (lines
385–396): an error reply sets the status to the error and clears
`currentTx`; a success reply stores the parsed value and sets the
status; the empty reply (blank input) clears `currentTx` and leaves
the status alone.  Every arriving reply is applied unconditionally —
the source carries no sequence numbers. -/
def applyWorkerReply (st : WorkerViewState) (m : WorkerReply) : WorkerViewState :=
  match m.error with
  | some e => { st with status := e, currentTx := none }
  | none =>
    match m.tx with
    | some tx => { status := "Transaction data loaded", currentTx := some tx }
    | none => { st with currentTx := none }

/-- The component state after a sequence of worker replies has arrived,
in arrival order. -/
def runReplies (st : WorkerViewState) (ms : List WorkerReply) : WorkerViewState :=
  ms.foldl applyWorkerReply st

end SafeMin

set_option maxRecDepth 10000

namespace SafeMin



/-! ## Character code facts -/

theorem toNat_ofNat_lt {n : Nat} (h : n < 55296) : (Char.ofNat n).toNat = n := by
  have hv : n.isValidChar := Or.inl h
  simp [Char.ofNat, hv, Char.ofNatAux, Char.toNat, UInt32.toNat]

theorem ofNat_toNat (c : Char) : Char.ofNat c.toNat = c := by
  have hv : c.toNat.isValidChar := by
    rcases c.valid with h | ⟨h1, h2⟩
    · exact Or.inl h
    · exact Or.inr ⟨h1, h2⟩
  apply Char.eq_of_val_eq
  rw [Char.ofNat, dif_pos hv]
  apply UInt32.ext
  simp [Char.ofNatAux, Char.toNat, UInt32.toNat]

theorem hexDigitVal_hexChar {d : Nat} (h : d < 16) : hexDigitVal (hexChar d) = some d := by
  interval_cases d <;> decide

/-! ## Reading back a quoted string -/

theorem parseStringBody_escString (cs : List Char) : ∀ (acc rest : List Char),
    parseStringBody acc (escString cs ++ '"' :: rest) = some (⟨acc.reverse ++ cs⟩, rest) := by
  induction cs with
  | nil =>
    intro acc rest
    rw [escString, List.nil_append, parseStringBody.eq_def]
    simp
  | cons c cs ih =>
    intro acc rest
    rw [escString, List.append_assoc]
    by_cases h1 : c = '"'
    · subst h1
      rw [show escapeChar '"' = ['\\', '"'] from by decide]
      rw [List.cons_append, List.cons_append, List.nil_append, parseStringBody.eq_def]
      simp +decide only []
      exact (ih _ _).trans (by simp)
    by_cases h2 : c = '\\'
    · subst h2
      rw [show escapeChar '\\' = ['\\', '\\'] from by decide]
      rw [List.cons_append, List.cons_append, List.nil_append, parseStringBody.eq_def]
      simp +decide only []
      exact (ih _ _).trans (by simp)
    by_cases h3 : c = '\x08'
    · subst h3
      rw [show escapeChar '\x08' = ['\\', 'b'] from by decide]
      rw [List.cons_append, List.cons_append, List.nil_append, parseStringBody.eq_def]
      simp +decide only []
      exact (ih _ _).trans (by simp)
    by_cases h4 : c = '\t'
    · subst h4
      rw [show escapeChar '\t' = ['\\', 't'] from by decide]
      rw [List.cons_append, List.cons_append, List.nil_append, parseStringBody.eq_def]
      simp +decide only []
      exact (ih _ _).trans (by simp)
    by_cases h5 : c = '\n'
    · subst h5
      rw [show escapeChar '\n' = ['\\', 'n'] from by decide]
      rw [List.cons_append, List.cons_append, List.nil_append, parseStringBody.eq_def]
      simp +decide only []
      exact (ih _ _).trans (by simp)
    by_cases h6 : c = '\x0c'
    · subst h6
      rw [show escapeChar '\x0c' = ['\\', 'f'] from by decide]
      rw [List.cons_append, List.cons_append, List.nil_append, parseStringBody.eq_def]
      simp +decide only []
      exact (ih _ _).trans (by simp)
    by_cases h7 : c = '\x0d'
    · subst h7
      rw [show escapeChar '\x0d' = ['\\', 'r'] from by decide]
      rw [List.cons_append, List.cons_append, List.nil_append, parseStringBody.eq_def]
      simp +decide only []
      exact (ih _ _).trans (by simp)
    by_cases h8 : c.toNat < 32
    · have he : escapeChar c =
          ['\\', 'u', '0', '0', hexChar (c.toNat / 16), hexChar (c.toNat % 16)] := by
        simp [escapeChar, h1, h2, h3, h4, h5, h6, h7, h8]
      have hhi := hexDigitVal_hexChar (d := c.toNat / 16) (by omega)
      have hlo := hexDigitVal_hexChar (d := c.toNat % 16) (by omega)
      have h0 : hexDigitVal '0' = some 0 := by decide
      have hdm : c.toNat / 16 * 16 + c.toNat % 16 = c.toNat := by omega
      have hs : ¬(55296 ≤ c.toNat ∧ c.toNat ≤ 57343) := by omega
      rw [he]
      rw [List.cons_append, List.cons_append, List.cons_append, List.cons_append,
        List.cons_append, List.cons_append, List.nil_append, parseStringBody.eq_def]
      simp +decide [h0, hhi, hlo, hs, ofNat_toNat, hdm]
      exact (ih _ _).trans (by first | rfl | simp)
    · have he : escapeChar c = [c] := by
        simp [escapeChar, h1, h2, h3, h4, h5, h6, h7, h8]
      rw [he, List.cons_append, List.nil_append, parseStringBody.eq_def]
      simp only []
      rw [if_neg h1, if_neg h2, if_neg (by omega : ¬ c.toNat < 32)]
      exact (ih _ _).trans (by simp)

theorem parseStringBody_qstr (s : String) (rest : List Char) :
    parseStringBody [] (escString s.data ++ '"' :: rest) = some (s, rest) :=
  (parseStringBody_escString s.data [] rest).trans (by simp)

/-! ## Reading back a printed numeral -/

theorem digitsGo_zero (fuel : Nat) : digitsGo fuel 0 = [0] := by
  cases fuel <;> simp [digitsGo]

theorem digitsGo_lt10 : ∀ fuel n, n ≤ fuel → ∀ d ∈ digitsGo fuel n, d < 10 := by
  intro fuel
  induction fuel with
  | zero => intro n hn; interval_cases n; simp [digitsGo]
  | succ fuel ih =>
    intro n hn d hd
    rw [digitsGo] at hd
    by_cases h : n < 10
    · simp [h] at hd; omega
    · simp [h] at hd
      rcases hd with hd | hd
      · exact ih (n / 10) (by omega) d hd
      · omega

theorem digitsGo_cons_pos : ∀ fuel n, n ≤ fuel → 1 ≤ n →
    ∃ d ds, digitsGo fuel n = d :: ds ∧ d ≠ 0 := by
  intro fuel
  induction fuel with
  | zero => intro n hn h1; omega
  | succ fuel ih =>
    intro n hn h1
    rw [digitsGo]
    by_cases h : n < 10
    · exact ⟨n, [], by simp [h], by omega⟩
    · obtain ⟨d, ds, hds, hd⟩ := ih (n / 10) (by omega) (by omega)
      exact ⟨d, ds ++ [n % 10], by simp [h, hds], hd⟩

theorem ofDigits_append_one (xs : List Nat) (d : Nat) :
    ofDigits (xs ++ [d]) = ofDigits xs * 10 + d := by
  simp [ofDigits, List.foldl_append]

theorem ofDigits_digitsGo : ∀ fuel n, n ≤ fuel → ofDigits (digitsGo fuel n) = n := by
  intro fuel
  induction fuel with
  | zero => intro n hn; interval_cases n; simp [digitsGo, ofDigits]
  | succ fuel ih =>
    intro n hn
    rw [digitsGo]
    by_cases h : n < 10
    · simp [h, ofDigits]
    · rw [if_neg h, ofDigits_append_one, ih (n / 10) (by omega)]
      omega

theorem ofDigits_natDigits (n : Nat) : ofDigits (natDigits n) = n :=
  ofDigits_digitsGo n n (Nat.le_refl n)

theorem digitChar_toNat {d : Nat} (h : d < 10) : (digitChar d).toNat = 48 + d :=
  toNat_ofNat_lt (by omega)

theorem digitChar_isDigit {d : Nat} (h : d < 10) : (digitChar d).isDigit = true := by
  interval_cases d <;> decide

theorem digitChar_ne_minus {d : Nat} (h : d < 10) : digitChar d ≠ '-' := by
  interval_cases d <;> decide

theorem takeDigits_map (ds : List Nat) : ∀ (rest : List Char),
    (∀ d ∈ ds, d < 10) →
    (∀ c, rest.head? = some c → c.isDigit = false) →
    takeDigits (ds.map digitChar ++ rest) = (ds, rest) := by
  induction ds with
  | nil =>
    intro rest _ hrest
    cases rest with
    | nil => simp [takeDigits]
    | cons c t => simp [takeDigits, hrest c rfl]
  | cons d ds ih =>
    intro rest hds hrest
    have hd : d < 10 := hds d (by simp)
    rw [List.map_cons, List.cons_append, takeDigits]
    simp only [digitChar_isDigit hd, if_true]
    rw [ih rest (fun x hx => hds x (by simp [hx])) hrest]
    simp [digitChar_toNat hd]

theorem parseSign_not_minus {c : Char} (h : c ≠ '-') (t : List Char) :
    parseSign (c :: t) = (false, c :: t) := by
  rw [parseSign.eq_def]
  split
  next heq => rw [List.cons.injEq] at heq; exact absurd heq.1 h
  next => rfl

theorem parseFrac_no_dot : ∀ (cs : List Char),
    (∀ c, cs.head? = some c → c ≠ '.') → parseFrac cs = some (none, cs) := by
  intro cs h
  cases cs with
  | nil => rfl
  | cons c t =>
    have hc : c ≠ '.' := h c rfl
    rw [parseFrac.eq_def]
    split
    next heq => rw [List.cons.injEq] at heq; exact absurd heq.1 hc
    next => rfl

theorem parseExpPart_no_e : ∀ (cs : List Char),
    (∀ c, cs.head? = some c → c ≠ 'e' ∧ c ≠ 'E') → parseExpPart cs = some (none, cs) := by
  intro cs h
  cases cs with
  | nil => rfl
  | cons c t =>
    obtain ⟨h1, h2⟩ := h c rfl
    rw [parseExpPart, if_neg (by simp [h1, h2])]

theorem parseNumber_printNat (n : Nat) (rest : List Char)
    (hrest : ∀ c, rest.head? = some c →
      c.isDigit = false ∧ c ≠ '.' ∧ c ≠ 'e' ∧ c ≠ 'E') :
    parseNumber (printNat n ++ rest) = some (natLit n, rest) := by
  have hlt := digitsGo_lt10 n n (Nat.le_refl n)
  have htd : takeDigits ((natDigits n).map digitChar ++ rest) = (natDigits n, rest) :=
    takeDigits_map _ rest (fun d hd => hlt d hd) (fun c hc => (hrest c hc).1)
  obtain ⟨d, ds, hds, hcanon⟩ :
      ∃ d ds, natDigits n = d :: ds ∧ ¬(d = 0 ∧ ds ≠ []) := by
    by_cases h1 : 1 ≤ n
    · obtain ⟨d, ds, h, hd⟩ := digitsGo_cons_pos n n (Nat.le_refl n) h1
      exact ⟨d, ds, h, by simp [hd]⟩
    · have : n = 0 := by omega
      subst this
      exact ⟨0, [], digitsGo_zero 0, by simp⟩
  have hd10 : d < 10 := hlt d (by rw [show digitsGo n n = natDigits n from rfl, hds]; simp)
  have hsign : parseSign (printNat n ++ rest) = (false, printNat n ++ rest) := by
    rw [printNat, hds, List.map_cons, List.cons_append]
    exact parseSign_not_minus (digitChar_ne_minus hd10) _
  rw [parseNumber]
  simp only [hsign]
  rw [show (printNat n ++ rest) = ((natDigits n).map digitChar ++ rest) from rfl, htd, hds]
  simp only []
  rw [if_neg hcanon, parseFrac_no_dot rest (fun c hc => (hrest c hc).2.1)]
  simp only []
  rw [parseExpPart_no_e rest (fun c hc => ⟨(hrest c hc).2.2.1, (hrest c hc).2.2.2⟩)]
  simp only []
  rw [natLit, hds]



theorem skipWs_idem (cs : List Char) : skipWs (skipWs cs) = skipWs cs := by
  induction cs with
  | nil => rfl
  | cons c cs ih =>
    rw [skipWs]
    by_cases h : jsonWs c
    · simp [h, ih]
    · simp [h, skipWs, if_neg h]

theorem skipWs_ws {c : Char} (h : jsonWs c = true) (cs : List Char) :
    skipWs (c :: cs) = skipWs cs := by
  simp [skipWs, h]

theorem skipWs_not_ws {c : Char} (h : jsonWs c = false) (cs : List Char) :
    skipWs (c :: cs) = c :: cs := by
  simp [skipWs, h]

theorem parseVal_skip {c : Char} (h : jsonWs c = true) (f : Nat) (cs : List Char) :
    parseVal (f + 1) (c :: cs) = parseVal (f + 1) cs := by
  rw [parseVal, parseVal, skipWs_ws h]

theorem parseVal_qstr (f : Nat) (s : String) (rest : List Char) :
    parseVal (f + 1) (qstr s ++ rest) = some (.str s, rest) := by
  rw [qstr]
  simp only [List.cons_append, List.append_assoc, List.singleton_append]
  rw [parseVal, skipWs_not_ws (by decide)]
  simp +decide only []
  rw [parseStringBody_qstr]
  simp



theorem parseMembersGo_pos (pv : List Char → Option (Json × List Char)) (lf : Nat)
    (h : 0 < lf) (cs : List Char) (acc : List (String × Json)) :
    parseMembersGo pv lf cs acc =
      match skipWs cs with
      | '"' :: r1 =>
        (match parseStringBody [] r1 with
        | none => none
        | some (k, r2) =>
          match skipWs r2 with
          | ':' :: r3 =>
            (match pv r3 with
            | none => none
            | some (v, r4) =>
              match skipWs r4 with
              | ',' :: r5 => parseMembersGo pv (lf - 1) r5 ((k, v) :: acc)
              | '\x7d' :: r5 => some (.obj ((k, v) :: acc).reverse, r5)
              | _ => none)
          | _ => none)
      | _ => none := by
  obtain ⟨k, rfl⟩ : ∃ k, lf = k + 1 := ⟨lf - 1, by omega⟩
  rw [parseMembersGo]
  simp

theorem parseItemsGo_pos (pv : List Char → Option (Json × List Char)) (lf : Nat)
    (h : 0 < lf) (cs : List Char) (acc : List Json) :
    parseItemsGo pv lf cs acc =
      match pv cs with
      | none => none
      | some (v, r1) =>
        match skipWs r1 with
        | ',' :: r2 => parseItemsGo pv (lf - 1) r2 (v :: acc)
        | ']' :: r2 => some (.arr (v :: acc).reverse, r2)
        | _ => none := by
  obtain ⟨k, rfl⟩ : ∃ k, lf = k + 1 := ⟨lf - 1, by omega⟩
  rw [parseItemsGo]
  simp

theorem psb_signer (X : List Char) :
    parseStringBody [] ('s' :: 'i' :: 'g' :: 'n' :: 'e' :: 'r' :: '"' :: X) =
      some ("signer", X) := by
  simp +decide [parseStringBody.eq_def]

theorem psb_data (X : List Char) :
    parseStringBody [] ('d' :: 'a' :: 't' :: 'a' :: '"' :: X) = some ("data", X) := by
  simp +decide [parseStringBody.eq_def]

theorem psb_to (X : List Char) :
    parseStringBody [] ('t' :: 'o' :: '"' :: X) = some ("to", X) := by
  simp +decide [parseStringBody.eq_def]

theorem psb_value (X : List Char) :
    parseStringBody [] ('v' :: 'a' :: 'l' :: 'u' :: 'e' :: '"' :: X) = some ("value", X) := by
  simp +decide [parseStringBody.eq_def]

theorem psb_signatures (X : List Char) :
    parseStringBody []
        ('s' :: 'i' :: 'g' :: 'n' :: 'a' :: 't' :: 'u' :: 'r' :: 'e' :: 's' :: '"' :: X) =
      some ("signatures", X) := by
  simp +decide [parseStringBody.eq_def]

theorem psb_nonce (X : List Char) :
    parseStringBody [] ('n' :: 'o' :: 'n' :: 'c' :: 'e' :: '"' :: X) = some ("nonce", X) := by
  simp +decide [parseStringBody.eq_def]



theorem parseVal_sigItem (f : Nat) (s : SafeSignature) (rest : List Char) :
    parseVal (f + 2) ('\n' :: printSigItem s ++ rest) = some (sigToJson s, rest) := by
  rw [printSigItem]
  simp only [sch, List.append_assoc, List.cons_append, List.singleton_append, List.nil_append]
  rw [show f + 2 = (f + 1) + 1 from rfl, parseVal]
  simp +decide only [skipWs_ws, skipWs_not_ws, ite_true, ite_false]
  split
  next heq => rw [List.cons.injEq] at heq; exact absurd heq.1 (by decide)
  next =>
    rw [parseMembersGo_pos _ _ (by simp)]
    simp +decide only [skipWs_ws, skipWs_not_ws, ite_true, ite_false]
    rw [psb_signer]
    simp +decide only [skipWs_ws, skipWs_not_ws, ite_true, ite_false]
    rw [parseVal_skip (by decide), parseVal_qstr]
    simp +decide only [skipWs_ws, skipWs_not_ws, ite_true, ite_false]
    rw [parseMembersGo_pos _ _ (by simp)]
    simp +decide only [skipWs_ws, skipWs_not_ws, ite_true, ite_false]
    rw [psb_data]
    simp +decide only [skipWs_ws, skipWs_not_ws, ite_true, ite_false]
    rw [parseVal_skip (by decide), parseVal_qstr]
    simp +decide only [skipWs_ws, skipWs_not_ws, ite_true, ite_false]
    simp [sigToJson]



theorem printSigItems_cons2 (a b : SafeSignature) (t : List SafeSignature) :
    printSigItems (a :: b :: t) = printSigItem a ++ sch ",\n" ++ printSigItems (b :: t) := rfl

theorem parseItemsGo_sigs (f : Nat) : ∀ (ss : List SafeSignature) (lf : Nat)
    (acc : List Json) (rest : List Char),
    ss ≠ [] → ss.length ≤ lf →
    parseItemsGo (parseVal (f + 2)) lf ('\n' :: printSigItems ss ++ sch "\n  ]" ++ rest) acc =
      some (.arr (acc.reverse ++ ss.map sigToJson), rest) := by
  intro ss
  induction ss with
  | nil => intro lf acc rest h _; exact absurd rfl h
  | cons s ss ih =>
    intro lf acc rest _ hlf
    rw [parseItemsGo_pos _ _ (by simp at hlf; omega)]
    cases ss with
    | nil =>
      rw [printSigItems, List.append_assoc]
      rw [parseVal_sigItem]
      simp +decide only [sch, List.cons_append, List.nil_append, skipWs_ws, skipWs_not_ws,
        ite_true, ite_false]
      simp
    | cons s2 ss2 =>
      rw [printSigItems_cons2]
      simp only [sch, List.append_assoc, List.cons_append, List.nil_append]
      rw [← List.cons_append, parseVal_sigItem]
      simp +decide only [skipWs_ws, skipWs_not_ws, ite_true, ite_false]
      have ih2 := ih (lf - 1) (sigToJson s :: acc) rest (by simp) (by simp at hlf ⊢; omega)
      simp only [sch, List.append_assoc, List.cons_append, List.nil_append] at ih2
      rw [ih2]
      simp



theorem printSigs_cons (a : SafeSignature) (t : List SafeSignature) :
    printSigs (a :: t) = sch "[\n" ++ printSigItems (a :: t) ++ sch "\n  ]" := rfl

theorem printSigItem_length (s : SafeSignature) : 30 ≤ (printSigItem s).length := by
  simp [printSigItem, sch, qstr]
  omega

theorem printSigItems_length_ge : ∀ (ss : List SafeSignature),
    ss.length ≤ (printSigItems ss).length := by
  intro ss
  induction ss with
  | nil => simp [printSigItems]
  | cons s ss ih =>
    cases ss with
    | nil =>
      rw [printSigItems]
      have := printSigItem_length s
      simp
      omega
    | cons s2 ss2 =>
      rw [printSigItems_cons2]
      have h1 := printSigItem_length s
      simp at ih ⊢
      simp [sch]
      omega

theorem printSigItems_head (s : SafeSignature) (ss : List SafeSignature) :
    ∃ Y, printSigItems (s :: ss) = printSigItem s ++ Y := by
  cases ss with
  | nil => exact ⟨[], by simp [printSigItems]⟩
  | cons s2 ss2 => exact ⟨sch ",\n" ++ printSigItems (s2 :: ss2), by rw [printSigItems_cons2]; simp⟩

theorem skipWs_sigItems (s : SafeSignature) (ss : List SafeSignature) (X : List Char) :
    (skipWs ('\n' :: (printSigItems (s :: ss) ++ X))).head? = some '\x7b' := by
  obtain ⟨Y, hY⟩ := printSigItems_head s ss
  rw [hY]
  rw [printSigItem]
  simp only [sch, List.append_assoc, List.cons_append, List.nil_append]
  simp +decide only [skipWs_ws, skipWs_not_ws]
  rfl

theorem parseVal_printSigs (f : Nat) (ss : List SafeSignature) (rest : List Char) :
    parseVal (f + 3) (printSigs ss ++ rest) = some (.arr (ss.map sigToJson), rest) := by
  cases ss with
  | nil =>
    rw [printSigs]
    rw [show f + 3 = (f + 2) + 1 from rfl, parseVal]
    simp +decide only [sch, List.cons_append, List.nil_append, skipWs_ws, skipWs_not_ws,
      ite_true, ite_false]
    simp
  | cons s ss =>
    rw [printSigs_cons]
    simp only [sch, List.append_assoc, List.cons_append, List.nil_append]
    rw [show f + 3 = (f + 2) + 1 from rfl, parseVal]
    rw [skipWs_not_ws (by decide)]
    simp +decide only [ite_true, ite_false]
    split
    next heq =>
      have hh := congrArg List.head? heq
      rw [skipWs_sigItems s ss ('\n' :: ' ' :: ' ' :: ']' :: rest)] at hh
      simp at hh
    next =>
      have hlen := printSigItems_length_ge (s :: ss)
      have hloop := parseItemsGo_sigs f (s :: ss)
        (('\n' :: (printSigItems (s :: ss) ++ '\n' :: ' ' :: ' ' :: ']' :: rest)).length + 1)
        [] rest (by simp) (by simp at hlen ⊢; omega)
      simp only [sch, List.append_assoc, List.cons_append, List.nil_append] at hloop
      rw [hloop]
      simp



theorem parseVal_skip_ge (fuel : Nat) {c : Char} (h : jsonWs c = true) (hf : 1 ≤ fuel)
    (cs : List Char) : parseVal fuel (c :: cs) = parseVal fuel cs := by
  obtain ⟨k, rfl⟩ : ∃ k, fuel = k + 1 := ⟨fuel - 1, by omega⟩
  exact parseVal_skip h k cs

theorem parseVal_qstr_ge (fuel : Nat) (hf : 1 ≤ fuel) (s : String) (rest : List Char) :
    parseVal fuel (qstr s ++ rest) = some (.str s, rest) := by
  obtain ⟨k, rfl⟩ : ∃ k, fuel = k + 1 := ⟨fuel - 1, by omega⟩
  exact parseVal_qstr k s rest

theorem parseVal_printSigs_ge (fuel : Nat) (hf : 3 ≤ fuel) (ss : List SafeSignature)
    (rest : List Char) :
    parseVal fuel (printSigs ss ++ rest) = some (.arr (ss.map sigToJson), rest) := by
  obtain ⟨k, rfl⟩ : ∃ k, fuel = k + 3 := ⟨fuel - 3, by omega⟩
  exact parseVal_printSigs k ss rest

theorem parseNumber_printNat_nl (n : Nat) (X : List Char) :
    parseNumber (printNat n ++ '\n' :: X) = some (natLit n, '\n' :: X) :=
  parseNumber_printNat n ('\n' :: X) (by intro c hc; simp at hc; subst hc; decide)



theorem natDigits_cons (n : Nat) : ∃ d ds, natDigits n = d :: ds ∧ d < 10 := by
  by_cases h1 : 1 ≤ n
  · obtain ⟨d, ds, h, _⟩ := digitsGo_cons_pos n n (Nat.le_refl n) h1
    refine ⟨d, ds, h, ?_⟩
    exact digitsGo_lt10 n n (Nat.le_refl n) d (by rw [h]; simp)
  · have : n = 0 := by omega
    subst this
    exact ⟨0, [], digitsGo_zero 0, by omega⟩

theorem parseVal_printNat (fuel : Nat) (hf : 1 ≤ fuel) (n : Nat) (X : List Char) :
    parseVal fuel (printNat n ++ '\n' :: X) = some (.num (natLit n), '\n' :: X) := by
  obtain ⟨k, rfl⟩ : ∃ k, fuel = k + 1 := ⟨fuel - 1, by omega⟩
  obtain ⟨d, ds, hds, hd⟩ := natDigits_cons n
  have e1 : (digitChar d = 'n') = False := by
    simp only [eq_iff_iff, iff_false]; interval_cases d <;> decide
  have e2 : (digitChar d = 't') = False := by
    simp only [eq_iff_iff, iff_false]; interval_cases d <;> decide
  have e3 : (digitChar d = 'f') = False := by
    simp only [eq_iff_iff, iff_false]; interval_cases d <;> decide
  have e4 : (digitChar d = '"') = False := by
    simp only [eq_iff_iff, iff_false]; interval_cases d <;> decide
  have e5 : (digitChar d = '[') = False := by
    simp only [eq_iff_iff, iff_false]; interval_cases d <;> decide
  have e6 : (digitChar d = '\x7b') = False := by
    simp only [eq_iff_iff, iff_false]; interval_cases d <;> decide
  have hnw : jsonWs (digitChar d) = false := by interval_cases d <;> decide
  rw [printNat, hds, List.map_cons, List.cons_append, parseVal, skipWs_not_ws hnw]
  simp only [e1, e2, e3, e4, e5, e6, ite_false, if_false, digitChar_isDigit hd, or_true, ite_true,
    if_true]
  rw [← List.cons_append, ← List.map_cons, ← hds, ← printNat, parseNumber_printNat_nl]



theorem parseVal_printRecord (f : Nat) (r : SerializedSafeTransaction) (rest : List Char) :
    parseVal (f + 4) (printRecord r ++ rest) = some (recordToJson r, rest) := by
  obtain ⟨rto, rvalue, rdata, rsigs, rnonce⟩ := r
  cases rnonce with
  | none =>
    rw [printRecord]
    simp only [sch, List.append_assoc, List.cons_append, List.nil_append, List.singleton_append]
    rw [show f + 4 = (f + 3) + 1 from rfl, parseVal, skipWs_not_ws (by decide)]
    simp +decide only [ite_true, ite_false]
    split
    next heq =>
      simp +decide only [skipWs_ws, skipWs_not_ws] at heq
      rw [List.cons.injEq] at heq
      exact absurd heq.1 (by decide)
    next =>
      rw [parseMembersGo_pos _ _ (by simp)]
      simp +decide only [skipWs_ws, skipWs_not_ws, ite_true, ite_false]
      rw [psb_to]
      simp +decide only [skipWs_ws, skipWs_not_ws, ite_true, ite_false]
      rw [parseVal_skip_ge _ (by decide) (by omega), parseVal_qstr_ge _ (by omega)]
      simp +decide only [skipWs_ws, skipWs_not_ws, ite_true, ite_false]
      rw [parseMembersGo_pos _ _ (by simp only [List.length_cons, List.length_append]; omega)]
      simp +decide only [skipWs_ws, skipWs_not_ws, ite_true, ite_false]
      rw [psb_value]
      simp +decide only [skipWs_ws, skipWs_not_ws, ite_true, ite_false]
      rw [parseVal_skip_ge _ (by decide) (by omega), parseVal_qstr_ge _ (by omega)]
      simp +decide only [skipWs_ws, skipWs_not_ws, ite_true, ite_false]
      rw [parseMembersGo_pos _ _ (by simp only [List.length_cons, List.length_append]; omega)]
      simp +decide only [skipWs_ws, skipWs_not_ws, ite_true, ite_false]
      rw [psb_data]
      simp +decide only [skipWs_ws, skipWs_not_ws, ite_true, ite_false]
      rw [parseVal_skip_ge _ (by decide) (by omega), parseVal_qstr_ge _ (by omega)]
      simp +decide only [skipWs_ws, skipWs_not_ws, ite_true, ite_false]
      rw [parseMembersGo_pos _ _ (by simp only [List.length_cons, List.length_append]; omega)]
      simp +decide only [skipWs_ws, skipWs_not_ws, ite_true, ite_false]
      rw [psb_signatures]
      simp +decide only [skipWs_ws, skipWs_not_ws, ite_true, ite_false]
      rw [parseVal_skip_ge _ (by decide) (by omega), parseVal_printSigs_ge _ (by omega)]
      simp +decide only [skipWs_ws, skipWs_not_ws, ite_true, ite_false]
      simp [recordToJson]
  | some n =>
    rw [printRecord]
    simp only [sch, List.append_assoc, List.cons_append, List.nil_append, List.singleton_append]
    rw [show f + 4 = (f + 3) + 1 from rfl, parseVal, skipWs_not_ws (by decide)]
    simp +decide only [ite_true, ite_false]
    split
    next heq =>
      simp +decide only [skipWs_ws, skipWs_not_ws] at heq
      rw [List.cons.injEq] at heq
      exact absurd heq.1 (by decide)
    next =>
      rw [parseMembersGo_pos _ _ (by simp)]
      simp +decide only [skipWs_ws, skipWs_not_ws, ite_true, ite_false]
      rw [psb_to]
      simp +decide only [skipWs_ws, skipWs_not_ws, ite_true, ite_false]
      rw [parseVal_skip_ge _ (by decide) (by omega), parseVal_qstr_ge _ (by omega)]
      simp +decide only [skipWs_ws, skipWs_not_ws, ite_true, ite_false]
      rw [parseMembersGo_pos _ _ (by simp only [List.length_cons, List.length_append]; omega)]
      simp +decide only [skipWs_ws, skipWs_not_ws, ite_true, ite_false]
      rw [psb_value]
      simp +decide only [skipWs_ws, skipWs_not_ws, ite_true, ite_false]
      rw [parseVal_skip_ge _ (by decide) (by omega), parseVal_qstr_ge _ (by omega)]
      simp +decide only [skipWs_ws, skipWs_not_ws, ite_true, ite_false]
      rw [parseMembersGo_pos _ _ (by simp only [List.length_cons, List.length_append]; omega)]
      simp +decide only [skipWs_ws, skipWs_not_ws, ite_true, ite_false]
      rw [psb_data]
      simp +decide only [skipWs_ws, skipWs_not_ws, ite_true, ite_false]
      rw [parseVal_skip_ge _ (by decide) (by omega), parseVal_qstr_ge _ (by omega)]
      simp +decide only [skipWs_ws, skipWs_not_ws, ite_true, ite_false]
      rw [parseMembersGo_pos _ _ (by simp only [List.length_cons, List.length_append]; omega)]
      simp +decide only [skipWs_ws, skipWs_not_ws, ite_true, ite_false]
      rw [psb_signatures]
      simp +decide only [skipWs_ws, skipWs_not_ws, ite_true, ite_false]
      rw [parseVal_skip_ge _ (by decide) (by omega), parseVal_printSigs_ge _ (by omega)]
      simp +decide only [skipWs_ws, skipWs_not_ws, ite_true, ite_false]
      rw [parseMembersGo_pos _ _ (by simp only [List.length_cons, List.length_append]; omega)]
      simp +decide only [skipWs_ws, skipWs_not_ws, ite_true, ite_false]
      rw [psb_nonce]
      simp +decide only [skipWs_ws, skipWs_not_ws, ite_true, ite_false]
      rw [parseVal_skip_ge _ (by decide) (by omega), parseVal_printNat _ (by omega)]
      simp +decide only [skipWs_ws, skipWs_not_ws, ite_true, ite_false]
      simp [recordToJson]



theorem printRecord_length (r : SerializedSafeTransaction) : 2 ≤ (printRecord r).length := by
  rw [printRecord]
  simp [sch]

theorem jsonParse_serializeRecord (r : SerializedSafeTransaction) :
    jsonParse (serializeRecord r) = some (recordToJson r) := by
  obtain ⟨k, hk⟩ : ∃ k, (printRecord r).length + 2 = k + 4 :=
    ⟨(printRecord r).length - 2, by have := printRecord_length r; omega⟩
  rw [jsonParse]
  rw [show (serializeRecord r).data = printRecord r from rfl]
  rw [show (serializeRecord r).length = (printRecord r).length from rfl]
  rw [hk]
  rw [show printRecord r = printRecord r ++ [] from (List.append_nil _).symm]
  rw [parseVal_printRecord]
  simp [skipWs]

theorem getField_recordToJson_to (r : SerializedSafeTransaction) :
    getField (recordToJson r) "to" = some (.str r.to) := by
  obtain ⟨rto, rvalue, rdata, rsigs, rnonce⟩ := r
  cases rnonce <;> simp +decide [recordToJson, getField, lookupLast]

theorem getField_recordToJson_value (r : SerializedSafeTransaction) :
    getField (recordToJson r) "value" = some (.str r.value) := by
  obtain ⟨rto, rvalue, rdata, rsigs, rnonce⟩ := r
  cases rnonce <;> simp +decide [recordToJson, getField, lookupLast]

theorem getField_recordToJson_data (r : SerializedSafeTransaction) :
    getField (recordToJson r) "data" = some (.str r.data) := by
  obtain ⟨rto, rvalue, rdata, rsigs, rnonce⟩ := r
  cases rnonce <;> simp +decide [recordToJson, getField, lookupLast]

theorem getField_recordToJson_signatures (r : SerializedSafeTransaction) :
    getField (recordToJson r) "signatures" = some (.arr (r.signatures.map sigToJson)) := by
  obtain ⟨rto, rvalue, rdata, rsigs, rnonce⟩ := r
  cases rnonce <;> simp +decide [recordToJson, getField, lookupLast]

theorem getField_recordToJson_nonce (r : SerializedSafeTransaction) :
    getField (recordToJson r) "nonce" = (r.nonce).map (fun n => .num (natLit n)) := by
  obtain ⟨rto, rvalue, rdata, rsigs, rnonce⟩ := r
  cases rnonce <;> simp +decide [recordToJson, getField, lookupLast]

theorem structCheck_recordToJson (r : SerializedSafeTransaction)
    (h1 : r.to ≠ "") (h2 : r.value ≠ "") (h3 : r.data ≠ "") :
    structCheck (recordToJson r) = true := by
  rw [structCheck, getField_recordToJson_to, getField_recordToJson_value,
    getField_recordToJson_data, getField_recordToJson_signatures]
  simp [jsTruthy, isJsArray, h1, h2, h3]

theorem recordToJson_ne_null (r : SerializedSafeTransaction) : recordToJson r ≠ .null := by
  rw [recordToJson]
  intro h
  cases h

theorem parseWorker_serializeRecord (r : SerializedSafeTransaction)
    (h1 : r.to ≠ "") (h2 : r.value ≠ "") (h3 : r.data ≠ "") :
    parseWorker (serializeRecord r) = ⟨none, some (recordToJson r)⟩ := by
  have hblank : jsBlank (serializeRecord r) = false := by
    rw [jsBlank, show (serializeRecord r).data = printRecord r from rfl, printRecord]
    simp +decide
  rw [parseWorker, hblank, jsonParse_serializeRecord]
  simp only [Bool.false_eq_true, if_false, ite_false]
  rw [show (recordToJson r) = .obj ([("to", .str r.to), ("value", .str r.value),
    ("data", .str r.data), ("signatures", .arr (r.signatures.map sigToJson))] ++
    (match r.nonce with
     | some n => [("nonce", .num (natLit n))]
     | none => [])) from rfl]
  simp only []
  rw [← show (recordToJson r) = .obj ([("to", .str r.to), ("value", .str r.value),
    ("data", .str r.data), ("signatures", .arr (r.signatures.map sigToJson))] ++
    (match r.nonce with
     | some n => [("nonce", .num (natLit n))]
     | none => [])) from rfl]
  rw [getField_recordToJson_to, getField_recordToJson_value, getField_recordToJson_data,
    getField_recordToJson_signatures]
  simp [jsTruthy, isJsArray, h1, h2, h3]

theorem sigOfJson_sigToJson (s : SafeSignature) : sigOfJson (sigToJson s) = some s := by
  simp +decide [sigOfJson, sigToJson, getField, lookupLast]

theorem decodeSigs_map (ss : List SafeSignature) :
    decodeSigs (ss.map sigToJson) = some ss := by
  induction ss with
  | nil => rfl
  | cons s ss ih => simp [decodeSigs, sigOfJson_sigToJson, ih]

theorem natLitToNat_natLit (n : Nat) : natLitToNat (natLit n) = some n := by
  rw [natLit, natLitToNat, ofDigits_natDigits]

theorem jsonToRecord_recordToJson (r : SerializedSafeTransaction) :
    jsonToRecord (recordToJson r) = some r := by
  rw [jsonToRecord, getField_recordToJson_to, getField_recordToJson_value,
    getField_recordToJson_data, getField_recordToJson_signatures, getField_recordToJson_nonce]
  simp only [decodeSigs_map]
  obtain ⟨rto, rvalue, rdata, rsigs, rnonce⟩ := r
  cases rnonce with
  | none => simp
  | some n => simp [natLitToNat_natLit]



/-! ## Service and UI facts -/

theorem jsOrString_ne_empty (v : Option String) (d : String) (hd : d ≠ "") :
    jsOrString v d ≠ "" := by
  cases v with
  | none => exact hd
  | some s =>
    rw [jsOrString]
    split
    · exact hd
    · assumption

theorem foldl_sdkAddSignature (ss : List SafeSignature) : ∀ (tx : SdkSafeTransaction),
    ss.foldl SdkSafeTransaction.addSignature tx =
      { tx with signatures := tx.signatures ++ ss } := by
  induction ss with
  | nil => intro tx; simp
  | cons s ss ih =>
    intro tx
    rw [List.foldl_cons, ih]
    simp [SdkSafeTransaction.addSignature]

theorem addSignature_unfold (chainNonce : Nat) (signerAddress : String)
    (sign : SdkTxData → String) (r : SerializedSafeTransaction) :
    SafeService.addSignature chainNonce signerAddress sign r =
      ({ r with signatures := r.signatures ++
          [⟨signerAddress, sign ⟨r.to, r.value, r.data, chainNonce⟩⟩] },
        ⟨⟨r.to, r.value, r.data, chainNonce⟩,
          r.signatures ++ [⟨signerAddress, sign ⟨r.to, r.value, r.data, chainNonce⟩⟩]⟩) := by
  rw [SafeService.addSignature]
  simp only [sdkCreateTransaction, foldl_sdkAddSignature, sdkSignTransaction,
    SdkSafeTransaction.addSignature]
  simp

theorem createTransaction_unfold (chainNonce : Nat) (signerAddress : String)
    (sign : SdkTxData → String) (txData : SafeTransactionDataPartial) :
    SafeService.createTransaction chainNonce signerAddress sign txData =
      ({ «to» := txData.to, value := jsOrString txData.value "0",
         data := jsOrString (some (jsOrString txData.data "0x")) "0x",
         signatures := [⟨signerAddress,
           sign ⟨txData.to, jsOrString txData.value "0", jsOrString txData.data "0x", chainNonce⟩⟩],
         nonce := some chainNonce },
        ⟨⟨txData.to, jsOrString txData.value "0", jsOrString txData.data "0x", chainNonce⟩,
          [⟨signerAddress,
            sign ⟨txData.to, jsOrString txData.value "0", jsOrString txData.data "0x", chainNonce⟩⟩]⟩) := by
  rw [SafeService.createTransaction]
  simp only [sdkCreateTransaction, sdkSignTransaction, SdkSafeTransaction.addSignature]
  simp

/-! ## The worker reply classification -/

theorem parseWorker_blank {s : String} (h : jsBlank s = true) :
    parseWorker s = ⟨none, none⟩ := by
  rw [parseWorker, if_pos h]

theorem parseWorker_syntax {s : String} (h1 : jsBlank s = false) (h2 : jsonParse s = none) :
    parseWorker s = ⟨some jsonSyntaxErrMsg, none⟩ := by
  rw [parseWorker, if_neg (by simp [h1]), h2]

theorem parseWorker_null {s : String} (h1 : jsBlank s = false)
    (h2 : jsonParse s = some .null) : parseWorker s = ⟨some nullAccessMsg, none⟩ := by
  rw [parseWorker, if_neg (by simp [h1]), h2]

theorem bool_nand_pos (a b c d : Bool) (h : (a && b && c && d) = false) :
    (!a || !b || !c || !d) = true := by
  cases a <;> cases b <;> cases c <;> cases d <;> simp_all

theorem bool_nand_neg (a b c d : Bool) (h : (a && b && c && d) = true) :
    (!a || !b || !c || !d) = false := by
  cases a <;> cases b <;> cases c <;> cases d <;> simp_all

theorem parseWorker_invalid {s : String} {j : Json} (h1 : jsBlank s = false)
    (h2 : jsonParse s = some j) (h3 : j ≠ .null) (h4 : structCheck j = false) :
    parseWorker s = ⟨some invalidFormatMsg, none⟩ := by
  rw [parseWorker, if_neg (by simp [h1]), h2]
  rw [structCheck] at h4
  cases j with
  | null => exact absurd rfl h3
  | bool b => simp only []; rw [if_pos (bool_nand_pos _ _ _ _ h4)]
  | num l => simp only []; rw [if_pos (bool_nand_pos _ _ _ _ h4)]
  | str s2 => simp only []; rw [if_pos (bool_nand_pos _ _ _ _ h4)]
  | arr xs => simp only []; rw [if_pos (bool_nand_pos _ _ _ _ h4)]
  | obj ms => simp only []; rw [if_pos (bool_nand_pos _ _ _ _ h4)]

theorem parseWorker_valid {s : String} {j : Json} (h1 : jsBlank s = false)
    (h2 : jsonParse s = some j) (h3 : j ≠ .null) (h4 : structCheck j = true) :
    parseWorker s = ⟨none, some j⟩ := by
  rw [parseWorker, if_neg (by simp [h1]), h2]
  rw [structCheck] at h4
  cases j with
  | null => exact absurd rfl h3
  | bool b => simp only []; rw [if_neg (by rw [bool_nand_neg _ _ _ _ h4]; simp)]
  | num l => simp only []; rw [if_neg (by rw [bool_nand_neg _ _ _ _ h4]; simp)]
  | str s2 => simp only []; rw [if_neg (by rw [bool_nand_neg _ _ _ _ h4]; simp)]
  | arr xs => simp only []; rw [if_neg (by rw [bool_nand_neg _ _ _ _ h4]; simp)]
  | obj ms => simp only []; rw [if_neg (by rw [bool_nand_neg _ _ _ _ h4]; simp)]



/-! ## The claims -/

/-- Claim C1 (code bug): the claim says the signature accumulator re-derives
the signable transaction from the record's `to`, `value`, `data` and `nonce`
— in particular that the record's nonce is included in what is signed.  The
code of `SafeService.addSignature` (lines 137–141) builds the
`MetaTransactionData` from `to`, `value`, `data` only and never passes
`serializedTx.nonce` (nor an `options.nonce`) to
`protocolKit.createTransaction`, so the signable transaction carries the
chain-resolved nonce: the signed SDK transaction's data is
`(to, value, data, chainNonce)`, and two records differing only in their
`nonce` field produce identical signed transactions. -/
theorem addSignature_drops_record_nonce (chainNonce : Nat) (signerAddress : String)
    (sign : SdkTxData → String) (r : SerializedSafeTransaction) (n1 n2 : Option Nat) :
    ((SafeService.addSignature chainNonce signerAddress sign r).2).data =
      ⟨r.to, r.value, r.data, chainNonce⟩ ∧
    (SafeService.addSignature chainNonce signerAddress sign { r with nonce := n1 }).2 =
      (SafeService.addSignature chainNonce signerAddress sign { r with nonce := n2 }).2 := by
  constructor
  · rw [addSignature_unfold]
  · rw [addSignature_unfold, addSignature_unfold]

/-- Claim C2: accumulating a signature from a signer not already present
yields a new record value whose signatures are exactly the old ones followed
by the new one, with `to`, `value`, `data`, `nonce` unchanged. -/
theorem addSignature_appends_new_signature (chainNonce : Nat) (signerAddress : String)
    (sign : SdkTxData → String) (r : SerializedSafeTransaction)
    (h : signerAddress ∉ r.signatures.map SafeSignature.signer) :
    (SafeService.addSignature chainNonce signerAddress sign r).1 =
      { r with signatures := r.signatures ++
          [⟨signerAddress, sign ⟨r.to, r.value, r.data, chainNonce⟩⟩] } := by
  rw [addSignature_unfold]

/-- Witness for claim C2 at a concrete record. -/
theorem addSignature_appends_new_signature_w :
    ("0xB" ∉ ([⟨"0xA", "sigA"⟩] : List SafeSignature).map SafeSignature.signer) ∧
    (SafeService.addSignature 5 "0xB" (fun _ => "sigB")
        ⟨"0x1", "10", "0x", [⟨"0xA", "sigA"⟩], some 7⟩).1 =
      ⟨"0x1", "10", "0x", [⟨"0xA", "sigA"⟩, ⟨"0xB", "sigB"⟩], some 7⟩ :=
  ⟨by decide, addSignature_appends_new_signature 5 "0xB" (fun _ => "sigB")
    ⟨"0x1", "10", "0x", [⟨"0xA", "sigA"⟩], some 7⟩ (by decide)⟩

/-- Claim C3: accumulation re-attaches every prior signature and appends the
one new signature, for every record — order preserved, nothing dropped, and
no deduplication of repeated signers (the statement quantifies over all
records, including those whose signature sequence repeats a signer). -/
theorem addSignature_no_dedup (chainNonce : Nat) (signerAddress : String)
    (sign : SdkTxData → String) (r : SerializedSafeTransaction) :
    ((SafeService.addSignature chainNonce signerAddress sign r).1).signatures =
      r.signatures ++ [⟨signerAddress, sign ⟨r.to, r.value, r.data, chainNonce⟩⟩] := by
  rw [addSignature_unfold]

/-- Claim C4: parsing the pretty-printed serialization of a structurally
valid record yields the record back unchanged. -/
theorem serialize_parse_roundtrip (r : SerializedSafeTransaction)
    (h1 : r.to ≠ "") (h2 : r.value ≠ "") (h3 : r.data ≠ "") :
    parseWorker (serializeRecord r) = ⟨none, some (recordToJson r)⟩ ∧
    jsonToRecord (recordToJson r) = some r :=
  ⟨parseWorker_serializeRecord r h1 h2 h3, jsonToRecord_recordToJson r⟩

/-- Witness for claim C4 at a concrete record. -/
theorem serialize_parse_roundtrip_w :
    parseWorker (serializeRecord ⟨"0x1111", "1000000000000000000", "0xdead",
        [⟨"0xA", "0xsig"⟩], some 7⟩) =
      ⟨none, some (recordToJson ⟨"0x1111", "1000000000000000000", "0xdead",
        [⟨"0xA", "0xsig"⟩], some 7⟩)⟩ ∧
    jsonToRecord (recordToJson ⟨"0x1111", "1000000000000000000", "0xdead",
        [⟨"0xA", "0xsig"⟩], some 7⟩) =
      some ⟨"0x1111", "1000000000000000000", "0xdead", [⟨"0xA", "0xsig"⟩], some 7⟩ :=
  serialize_parse_roundtrip ⟨"0x1111", "1000000000000000000", "0xdead",
    [⟨"0xA", "0xsig"⟩], some 7⟩ (by decide) (by decide) (by decide)

/-- Claim C5, amended: the worker's reply is classified by: blank input gives
the no-transaction reply; text `JSON.parse` rejects gives the parse error
reply; the JSON literal `null` gives the `TypeError` reply thrown by the
field access `parsedTx.to` (not the schema error); otherwise the reply is
the schema error exactly when the truthiness/array structural check fails,
and the parsed value itself when it passes. -/
theorem parseWorker_outcomes (s : String) :
    (jsBlank s = true → parseWorker s = ⟨none, none⟩) ∧
    (jsBlank s = false → jsonParse s = none → parseWorker s = ⟨some jsonSyntaxErrMsg, none⟩) ∧
    (jsBlank s = false → jsonParse s = some .null → parseWorker s = ⟨some nullAccessMsg, none⟩) ∧
    (∀ j, jsBlank s = false → jsonParse s = some j → j ≠ .null → structCheck j = false →
      parseWorker s = ⟨some invalidFormatMsg, none⟩) ∧
    (∀ j, jsBlank s = false → jsonParse s = some j → j ≠ .null → structCheck j = true →
      parseWorker s = ⟨none, some j⟩) :=
  ⟨fun h => parseWorker_blank h,
   fun h1 h2 => parseWorker_syntax h1 h2,
   fun h1 h2 => parseWorker_null h1 h2,
   fun _ h1 h2 h3 h4 => parseWorker_invalid h1 h2 h3 h4,
   fun _ h1 h2 h3 h4 => parseWorker_valid h1 h2 h3 h4⟩

/-- Witness for claim C5's classification at concrete inputs. -/
theorem parseWorker_outcomes_w :
    parseWorker "  " = ⟨none, none⟩ ∧
    parseWorker "not json" = ⟨some jsonSyntaxErrMsg, none⟩ ∧
    parseWorker "null" = ⟨some nullAccessMsg, none⟩ :=
  ⟨(parseWorker_outcomes "  ").1 rfl,
   (parseWorker_outcomes "not json").2.1 rfl rfl,
   (parseWorker_outcomes "null").2.2.1 rfl rfl⟩

/-- Counterexample to claim C5 as stated: the input is well-formed JSON, all
of `to`, `value`, `data` are present and `signatures` is an array, so the
claim says parsing succeeds; the code rejects it with the schema error,
because `value` is the (falsy) number `0`. -/
theorem parseWorker_present_field_rejected :
    jsonParse "\x7b\"to\":\"0xCAFE\",\"value\":0,\"data\":\"0x\",\"signatures\":[]\x7d" =
      some (.obj [("to", .str "0xCAFE"), ("value", .num ⟨false, [0], none, none⟩),
        ("data", .str "0x"), ("signatures", .arr [])]) ∧
    parseWorker "\x7b\"to\":\"0xCAFE\",\"value\":0,\"data\":\"0x\",\"signatures\":[]\x7d" =
      ⟨some invalidFormatMsg, none⟩ :=
  ⟨rfl, rfl⟩

/-- Claim C6: the can-sign query is false without a record or with an empty
connected address; otherwise it is false exactly when some existing
signature's signer equals the connected address case-insensitively. -/
theorem canSignTransaction_spec (tx : SerializedSafeTransaction) (a : String) (h : a ≠ "") :
    canSignTransaction none a = false ∧
    canSignTransaction (some tx) "" = false ∧
    (canSignTransaction (some tx) a = false ↔
      ∃ sig ∈ tx.signatures, sig.signer.toLower = a.toLower) := by
  refine ⟨rfl, by simp [canSignTransaction], ?_⟩
  rw [canSignTransaction]
  rw [if_neg h]
  simp [List.any_eq_true]

/-- Witness for claim C6 at a concrete record and address. -/
theorem canSignTransaction_spec_w :
    canSignTransaction none "0xab" = false ∧
    canSignTransaction (some ⟨"0x1", "1", "0x", [⟨"0xab", "s"⟩], none⟩) "0xab" = false := by
  have h := canSignTransaction_spec ⟨"0x1", "1", "0x", [⟨"0xab", "s"⟩], none⟩ "0xab" (by decide)
  exact ⟨h.1, h.2.2.mpr ⟨⟨"0xab", "s"⟩, by simp, rfl⟩⟩

/-- Claim C7: when the signing service call fails, the handler leaves the
record, its serialized text and the connected address untouched and only the
status message reflects the failure. -/
theorem handleAddSignature_failure
    (service : SerializedSafeTransaction → Except String SerializedSafeTransaction)
    (st : UiState) (tx : SerializedSafeTransaction) (msg : String)
    (hcur : st.currentTx = some tx) (hfail : service tx = .error msg) :
    handleAddSignature service st = { st with status := "Failed to add signature: " ++ msg } ∧
    (handleAddSignature service st).currentTx = st.currentTx ∧
    (handleAddSignature service st).serializedTxStr = st.serializedTxStr ∧
    (handleAddSignature service st).connectedAddress = st.connectedAddress := by
  have hmain : handleAddSignature service st =
      { st with status := "Failed to add signature: " ++ msg } := by
    rw [handleAddSignature, hcur]
    simp only []
    rw [hfail]
  refine ⟨hmain, ?_, ?_, ?_⟩ <;> rw [hmain]

/-- Witness for claim C7 at a concrete state and failing service. -/
theorem handleAddSignature_failure_w :
    handleAddSignature (fun _ => .error "User rejected")
        ⟨"ok", "0xA", some ⟨"0x1", "1", "0x", [], none⟩, "text"⟩ =
      ⟨"Failed to add signature: " ++ "User rejected", "0xA",
        some ⟨"0x1", "1", "0x", [], none⟩, "text"⟩ :=
  (handleAddSignature_failure (fun _ => .error "User rejected")
    ⟨"ok", "0xA", some ⟨"0x1", "1", "0x", [], none⟩, "text"⟩
    ⟨"0x1", "1", "0x", [], none⟩ "User rejected" rfl rfl).1

/-- Claim C8 (code bug): the claim says a stale reply arriving after a newer
submission's reply must not overwrite the newer state.  The handler applies
every arriving reply unconditionally (no sequence numbers exist in the
source), so when the reply to the first submission arrives after the reply
to the second, the displayed state reflects the first submission's outcome,
not the second's. -/
theorem stale_worker_reply_wins :
    parseWorker "\x7b\"to\":\"0xaaa\",\"value\":\"1\",\"data\":\"0x\",\"signatures\":[]\x7d" =
      ⟨none, some (.obj [("to", .str "0xaaa"), ("value", .str "1"), ("data", .str "0x"),
        ("signatures", .arr [])])⟩ ∧
    parseWorker "\x7b\"to\":\"0xaaa\",\"value\":\"2\",\"data\":\"0x\",\"signatures\":[]\x7d" =
      ⟨none, some (.obj [("to", .str "0xaaa"), ("value", .str "2"), ("data", .str "0x"),
        ("signatures", .arr [])])⟩ ∧
    (.obj [("to", .str "0xaaa"), ("value", .str "1"), ("data", .str "0x"),
        ("signatures", .arr [])] : Json) ≠
      .obj [("to", .str "0xaaa"), ("value", .str "2"), ("data", .str "0x"),
        ("signatures", .arr [])] ∧
    runReplies ⟨"", none⟩
        [parseWorker "\x7b\"to\":\"0xaaa\",\"value\":\"2\",\"data\":\"0x\",\"signatures\":[]\x7d",
         parseWorker "\x7b\"to\":\"0xaaa\",\"value\":\"1\",\"data\":\"0x\",\"signatures\":[]\x7d"] =
      ⟨"Transaction data loaded", some (.obj [("to", .str "0xaaa"), ("value", .str "1"),
        ("data", .str "0x"), ("signatures", .arr [])])⟩ := by
  refine ⟨rfl, rfl, ?_, rfl⟩
  intro h
  have h2 := congrArg (fun j => getField j "value") h
  simp +decide [getField, lookupLast] at h2

/-- Claim C9: the structural check uses JavaScript truthiness, not key
presence: well-formed inputs whose required fields are all present but falsy
(`value` the number `0`, empty-string `to`, empty-string `data`) are
rejected with the schema error. -/
theorem truthiness_rejects_present_fields :
    parseWorker "\x7b\"to\":\"0xabc\",\"value\":0,\"data\":\"0x\",\"signatures\":[]\x7d" =
      ⟨some invalidFormatMsg, none⟩ ∧
    parseWorker "\x7b\"to\":\"\",\"value\":\"1\",\"data\":\"0x\",\"signatures\":[]\x7d" =
      ⟨some invalidFormatMsg, none⟩ ∧
    parseWorker "\x7b\"to\":\"0xabc\",\"value\":\"1\",\"data\":\"\",\"signatures\":[]\x7d" =
      ⟨some invalidFormatMsg, none⟩ ∧
    jsonParse "\x7b\"to\":\"\",\"value\":\"1\",\"data\":\"0x\",\"signatures\":[]\x7d" =
      some (.obj [("to", .str ""), ("value", .str "1"), ("data", .str "0x"),
        ("signatures", .arr [])]) :=
  ⟨rfl, rfl, rfl, rfl⟩

/-- Claim C10: every record produced by `createTransaction` is structurally
valid by construction — `value` defaults to `"0"`, `data` to `"0x"`,
`signatures` is an array — so with a non-empty destination its serialized
text passes the worker's structural check and parses back to the record's
JSON value. -/
theorem createTransaction_output_valid (chainNonce : Nat) (signerAddress : String)
    (sign : SdkTxData → String) (txData : SafeTransactionDataPartial)
    (h : txData.to ≠ "") :
    parseWorker (serializeRecord
        (SafeService.createTransaction chainNonce signerAddress sign txData).1) =
      ⟨none, some (recordToJson
        (SafeService.createTransaction chainNonce signerAddress sign txData).1)⟩ := by
  apply parseWorker_serializeRecord
  · rw [createTransaction_unfold]; exact h
  · rw [createTransaction_unfold]
    exact jsOrString_ne_empty txData.value "0" (by decide)
  · rw [createTransaction_unfold]
    exact jsOrString_ne_empty (some (jsOrString txData.data "0x")) "0x" (by decide)

/-- Witness for claim C10 at concrete inputs, with an empty optional
calldata defaulted by the service. -/
theorem createTransaction_output_valid_w :
    parseWorker (serializeRecord
        (SafeService.createTransaction 3 "0xA" (fun _ => "0xsig")
          ⟨"0x9", some "5", none⟩).1) =
      ⟨none, some (recordToJson
        (SafeService.createTransaction 3 "0xA" (fun _ => "0xsig")
          ⟨"0x9", some "5", none⟩).1)⟩ :=
  createTransaction_output_valid 3 "0xA" (fun _ => "0xsig") ⟨"0x9", some "5", none⟩
    (show ("0x9" : String) ≠ "" by decide)


end SafeMin
